import Mathlib

/-!
Verification of the maze-agent controller (`src/src/maze_agent.py`).

The agent controller and sensor encoder live in `maze_agent.py` and are
embedded here directly.  The collaborating classes `MazeClause`
(`maze_clause.py`) and `MazeKnowledgeBase` (`maze_knowledge_base.py`) are not
part of the provided sources; following the specification, a clause is a
disjunction of literals `(("P", location), polarity)` and the knowledge base
exposes `tell` (assert a clause), `ask` (entailment query) and
`simplify_self` (store compaction).  The controller code only ever observes
the knowledge base through the clauses it tells and the boolean answers of
`ask`, so the knowledge base is represented by the log of told clauses
together with an arbitrary query function `ask : Clause → Bool` that is a
parameter of each controller operation.
-/

/-- A maze location, the `(c, r)` integer pair used throughout the agent. -/
abbrev Loc : Type := Int × Int

/-- A literal: a proposition `("P", location)` together with a polarity,
mirroring the tuples `(("P", loc), True/False)` built by the agent. -/
abbrev Lit : Type := (String × Loc) × Bool

/-- Modelled from the spec: `MazeClause` (`maze_clause.py` is not under
`src/`) wraps a sequence of literals as a disjunction.  The controller only
compares and stores the clauses it constructs, none of which are tautological
or contain duplicate literals, so the clause is kept as its literal list. -/
def MazeClause (lits : List Lit) : List Lit := lits

/-- A clause as stored in the told-clause log. -/
abbrev Clause : Type := List Lit

/-- The mutable attributes of the Python `MazeAgent` that the controller
reads and writes (`env` and `maze` are opaque collaborator handles and are
replaced by explicit parameters of the operations that consult them). -/
structure MazeAgent where
  goal : Loc
  start : Loc
  kb : List Clause
  possible_pits : Finset Loc
  pit_tiles : Finset Loc
  safe_tiles : Finset Loc

/-- Modelled from the spec: `MazeKnowledgeBase.tell` asserts a clause.  The
store additionally prunes tautologies and subsumed clauses, but the
controller's contract only depends on which clauses have been told, so `tell`
records the clause in the told-clause log. -/
def MazeAgent.tell (a : MazeAgent) (c : Clause) : MazeAgent :=
  { a with kb := a.kb ++ [c] }

/-- Modelled from the spec: `MazeKnowledgeBase.simplify_self` compacts the
clause store using the confirmed pit/safe sets; it tells no new clause and
answers no query, so it leaves the told-clause log (and the agent record)
unchanged. -/
def simplify_self (a : MazeAgent) : MazeAgent := a

/-- `MazeAgent.__init__`: record start and goal, create the empty knowledge
base and location sets, then mark start, goal and every cardinal neighbor of
the start (radius 1, supplied by the environment) as safe. -/
def initMazeAgent (start goal : Loc) (cardinals : List Loc) : MazeAgent :=
  let a : MazeAgent :=
    { goal := goal, start := start, kb := [],
      possible_pits := ∅, pit_tiles := ∅, safe_tiles := ∅ }
  let a := { a with safe_tiles := insert a.start a.safe_tiles }
  let a := { a with safe_tiles := insert a.goal a.safe_tiles }
  cardinals.foldl (fun a t => { a with safe_tiles := insert t a.safe_tiles }) a

/-- `MazeAgent.get_manhattan_dist`: distance from `loc` to the goal. -/
def get_manhattan_dist (goal : Loc) (loc : Loc) : Nat :=
  (loc.1 - goal.1).natAbs + (loc.2 - goal.2).natAbs

/-- The clauses built by the nested `for i / for j in range(i+1, …)` loops of
`warning_tile_clause`: one two-literal clause of polarity `pol` for every
pair of distinct list positions, in loop order. -/
def pairClauses (pol : Bool) : List Loc → List Clause
  | [] => []
  | t :: rest =>
      rest.map (fun u => MazeClause [(("P", t), pol), (("P", u), pol)]) ++
        pairClauses pol rest

/-- `MazeAgent.warning_tile_clause`: encode a warning label over the cardinal
neighbors of `loc` (`adjacent`, as returned by `env.get_cardinal_locs(loc,
1)`), with `adj_list` the neighbors not already known safe. -/
def warning_tile_clause (warning_num : String) (loc : Loc)
    (adjacent : List Loc) (a : MazeAgent) : MazeAgent :=
  let adjList := adjacent.filter (fun t => decide (t ∉ a.safe_tiles))
  let a :=
    if warning_num = "3" then
      adjacent.foldl
        (fun a t =>
          MazeAgent.tell { a with pit_tiles := insert t a.pit_tiles }
            (MazeClause [(("P", t), true)])) a
    else if warning_num = "2" then
      if adjList.length = 2 then
        let t0 := adjList.getD 0 loc
        let t1 := adjList.getD 1 loc
        let a := MazeAgent.tell a (MazeClause [(("P", t0), true)])
        let a := MazeAgent.tell a (MazeClause [(("P", t1), true)])
        let a := { a with pit_tiles := insert t0 a.pit_tiles }
        { a with pit_tiles := insert t1 a.pit_tiles }
      else
        let a := (pairClauses true adjList).foldl MazeAgent.tell a
        MazeAgent.tell a (MazeClause (adjList.map (fun t => (("P", t), false))))
    else if warning_num = "1" then
      if adjList.length = 1 then
        let t0 := adjList.getD 0 loc
        let a := MazeAgent.tell a (MazeClause [(("P", t0), true)])
        { a with pit_tiles := insert t0 a.pit_tiles }
      else
        let a := (pairClauses false adjList).foldl MazeAgent.tell a
        MazeAgent.tell a (MazeClause (adjList.map (fun t => (("P", t), true))))
    else a
  simplify_self a

/-- The body of the clear-tile loop in `think`: mark an adjacent tile safe,
drop it from the possible pits and tell the unit not-pit clause. -/
def clearStep (a : MazeAgent) (t : Loc) : MazeAgent :=
  let a := { a with safe_tiles := insert t a.safe_tiles }
  let a := { a with possible_pits := a.possible_pits.erase t }
  MazeAgent.tell a (MazeClause [(("P", t), false)])

/-- The body of the warning-tile loop in `think`: a neighbor not known safe
becomes a possible pit. -/
def possStep (a : MazeAgent) (c : Loc) : MazeAgent :=
  if c ∉ a.safe_tiles then { a with possible_pits := insert c a.possible_pits }
  else a

/-- The tile-classification block of `think` (`adj` is
`env.get_cardinal_locs(location, 1)`). -/
def classifyTile (a : MazeAgent) (loc : Loc) (tile : String)
    (adj : List Loc) : MazeAgent :=
  if tile = "P" then
    let a := MazeAgent.tell a (MazeClause [(("P", loc), true)])
    let a := { a with possible_pits := a.possible_pits.erase loc }
    { a with pit_tiles := insert loc a.pit_tiles }
  else if tile = "." then
    let a := MazeAgent.tell a (MazeClause [(("P", loc), false)])
    let a := { a with safe_tiles := insert loc a.safe_tiles }
    let a := { a with possible_pits := a.possible_pits.erase loc }
    adj.foldl clearStep a
  else
    let a := warning_tile_clause tile loc adj a
    let a := { a with safe_tiles := insert loc a.safe_tiles }
    let a := { a with possible_pits := a.possible_pits.erase loc }
    adj.foldl possStep a

/-- The opening lines of `think`: defensively tell that the goal is safe and
add it to the safe set. -/
def thinkPre (a : MazeAgent) : MazeAgent :=
  let a := MazeAgent.tell a (MazeClause [(("P", a.goal), false)])
  { a with safe_tiles := insert a.goal a.safe_tiles }

/-- The two `ask` queries of the frontier loop for one location, and the
reclassification they trigger. -/
def queryUpd (ask : Clause → Bool) (l : Loc) (a : MazeAgent) : MazeAgent :=
  let a :=
    if ask (MazeClause [(("P", l), true)]) then
      { a with pit_tiles := insert l a.pit_tiles,
               possible_pits := a.possible_pits.erase l }
    else a
  if ask (MazeClause [(("P", l), false)]) then
    { a with safe_tiles := insert l a.safe_tiles,
             possible_pits := a.possible_pits.erase l }
  else a

/-- The score assigned to a frontier location by `think` after its two
queries: known pit, then safe-and-not-possible, then possible pit. -/
def scoreOf (a : MazeAgent) (d : Loc → Nat) (l : Loc) : Nat :=
  if l ∈ a.pit_tiles then d l + 20
  else if l ∉ a.possible_pits ∧ l ∈ a.safe_tiles then d l
  else d l + 15

/-- The frontier loop of `think`: query, reclassify and score each frontier
location in order, threading the agent state and collecting the scores
dictionary as an association list in insertion order. -/
def frontierLoop (ask : Clause → Bool) (d : Loc → Nat) :
    List Loc → MazeAgent → MazeAgent × List (Loc × Nat)
  | [], a => (a, [])
  | l :: rest, a =>
      let a1 := queryUpd ask l a
      let sc := scoreOf a1 d l
      let res := frontierLoop ask d rest a1
      (res.1, (l, sc) :: res.2)

/-- The selection loop of `think`: `best_score` starts at infinity (`none`)
and is replaced whenever a strictly smaller score is found. -/
def bestFold : Option (Loc × Nat) → List (Loc × Nat) → Option (Loc × Nat)
  | best, [] => best
  | best, (l, v) :: rest =>
      match best with
      | none => bestFold (some (l, v)) rest
      | some (bl, bv) =>
          if v < bv then bestFold (some (l, v)) rest
          else bestFold (some (bl, bv)) rest

/-- The location `think` hands back to the movement executor. -/
inductive Choice where
  | target (l : Loc)
  | randomFrom (ls : List Loc)
deriving DecidableEq

/-- The only failure of `think` itself: `random.choice` applied to an empty
sequence raises. -/
inductive ThinkError where
  | emptyChoice
deriving DecidableEq

/-- `MazeAgent.think`: process one perception `(loc, tile)`.  `frontier` is
`env.get_frontier_locs()`, `adj` is `env.get_cardinal_locs(location, 1)` and
`ask` is the knowledge-base query.  Returns the updated agent and either the
selected location, the uniform-random fallback over the frontier, or the
error raised by `random.choice` on an empty frontier. -/
def think (a : MazeAgent) (loc : Loc) (tile : String) (frontier : List Loc)
    (adj : List Loc) (ask : Clause → Bool) :
    MazeAgent × Except ThinkError Choice :=
  let a := thinkPre a
  if a.goal ∈ frontier then (a, Except.ok (Choice.target a.goal))
  else
    let a := simplify_self (classifyTile a loc tile adj)
    let res := frontierLoop ask (get_manhattan_dist a.goal) frontier a
    match bestFold none res.2 with
    | some pb =>
        if pb.2 ≠ 0 then (res.1, Except.ok (Choice.target pb.1))
        else if frontier = [] then (res.1, Except.error ThinkError.emptyChoice)
        else (res.1, Except.ok (Choice.randomFrom frontier))
    | none =>
        if frontier = [] then (res.1, Except.error ThinkError.emptyChoice)
        else (res.1, Except.ok (Choice.randomFrom frontier))

/-- `MazeAgent.is_safe_tile`: cached sets first, then the two queries. -/
def is_safe_tile (a : MazeAgent) (ask : Clause → Bool) (loc : Loc) :
    Option Bool :=
  if loc ∈ a.safe_tiles then some true
  else if loc ∈ a.pit_tiles then some false
  else if ask (MazeClause [(("P", loc), true)]) then some false
  else if ask (MazeClause [(("P", loc), false)]) then some true
  else none

/-- Does an assignment of pits to locations make a literal true? -/
def litSat (asg : Loc → Bool) (lit : Lit) : Bool :=
  asg lit.1.2 == lit.2

/-- Does an assignment satisfy a clause (some literal holds)? -/
def clauseSat (asg : Loc → Bool) (c : Clause) : Bool :=
  c.any (litSat asg)

/-- Number of pits an assignment places among the given locations. -/
def hazardCount (asg : Loc → Bool) (locs : List Loc) : Nat :=
  (locs.filter asg).length

/-- Specification-side selection: the minimum-score entry, keeping the first
one encountered on ties. -/
def firstMin : List (Loc × Nat) → Option (Loc × Nat)
  | [] => none
  | p :: rest =>
      match firstMin rest with
      | none => some p
      | some q => if p.2 ≤ q.2 then some p else some q

/-- Specification-side score of a frontier location after the step's two
queries: manhattan distance plus 20 for a confirmed hazard, plus 0 for a
confirmed safe tile, plus 15 when neither is confirmed.  A location counts as
confirmed hazard (resp. safe) when it was already recorded as such before the
frontier loop or its hazard (resp. safe) query succeeds. -/
def specCase (a : MazeAgent) (ask : Clause → Bool) (l : Loc) : Nat :=
  if l ∈ a.pit_tiles ∨ ask (MazeClause [(("P", l), true)]) then 20
  else if l ∈ a.safe_tiles ∨ ask (MazeClause [(("P", l), false)]) then 0
  else 15

/-- Code-side score of a frontier location expressed against the state before
the frontier loop (the loop's own updates folded in). -/
def caseScore (a : MazeAgent) (ask : Clause → Bool) (l : Loc) : Nat :=
  if l ∈ a.pit_tiles ∨ ask (MazeClause [(("P", l), true)]) then 20
  else if ¬(l ∈ a.possible_pits ∧ ask (MazeClause [(("P", l), true)]) = false ∧
              ask (MazeClause [(("P", l), false)]) = false) ∧
            (l ∈ a.safe_tiles ∨ ask (MazeClause [(("P", l), false)])) then 0
  else 15

/-- Shorthand for the hazard query `ask(MazeClause([(("P", l), True)]))`. -/
def askPit (ask : Clause → Bool) (l : Loc) : Bool :=
  ask (MazeClause [(("P", l), true)])

/-- Shorthand for the safety query `ask(MazeClause([(("P", l), False)]))`. -/
def askSafe (ask : Clause → Bool) (l : Loc) : Bool :=
  ask (MazeClause [(("P", l), false)])

lemma queryUpd_goal (ask : Clause → Bool) (l : Loc) (a : MazeAgent) :
    (queryUpd ask l a).goal = a.goal := by
  unfold queryUpd
  split_ifs <;> rfl

lemma queryUpd_kb (ask : Clause → Bool) (l : Loc) (a : MazeAgent) :
    (queryUpd ask l a).kb = a.kb := by
  unfold queryUpd
  split_ifs <;> rfl

lemma mem_pit_queryUpd (ask : Clause → Bool) (l : Loc) (a : MazeAgent)
    (x : Loc) :
    x ∈ (queryUpd ask l a).pit_tiles ↔
      x ∈ a.pit_tiles ∨ (x = l ∧ askPit ask l = true) := by
  unfold queryUpd askPit
  split_ifs with h1 h2 <;>
    simp_all [Finset.mem_insert] <;> tauto

lemma mem_safe_queryUpd (ask : Clause → Bool) (l : Loc) (a : MazeAgent)
    (x : Loc) :
    x ∈ (queryUpd ask l a).safe_tiles ↔
      x ∈ a.safe_tiles ∨ (x = l ∧ askSafe ask l = true) := by
  unfold queryUpd askSafe
  split_ifs with h1 h2 <;>
    simp_all [Finset.mem_insert] <;> tauto

lemma mem_poss_queryUpd (ask : Clause → Bool) (l : Loc) (a : MazeAgent)
    (x : Loc) :
    x ∈ (queryUpd ask l a).possible_pits ↔
      x ∈ a.possible_pits ∧
        ¬(x = l ∧ (askPit ask l = true ∨ askSafe ask l = true)) := by
  unfold queryUpd askPit askSafe
  split_ifs with h1 h2 <;>
    simp_all [Finset.mem_erase] <;> tauto

lemma caseScore_queryUpd (ask : Clause → Bool) (l : Loc) (a : MazeAgent)
    (x : Loc) :
    caseScore (queryUpd ask l a) ask x = caseScore a ask x := by
  unfold caseScore
  have hp := mem_pit_queryUpd ask l a x
  have hs := mem_safe_queryUpd ask l a x
  have hq := mem_poss_queryUpd ask l a x
  unfold askPit at hp
  unfold askSafe at hs
  unfold askPit askSafe at hq
  refine if_congr ?h1 rfl (if_congr ?h2 rfl rfl)
  · rw [hp]
    by_cases hxl : x = l
    · subst hxl; tauto
    · tauto
  · rw [hq, hs]
    by_cases hxl : x = l
    · subst hxl
      cases h1 : ask (MazeClause [(("P", x), true)]) <;>
        cases h2 : ask (MazeClause [(("P", x), false)]) <;>
          simp [h1, h2]
    · simp [hxl]

lemma scoreOf_queryUpd (ask : Clause → Bool) (l : Loc) (a : MazeAgent)
    (d : Loc → Nat) :
    scoreOf (queryUpd ask l a) d l = d l + caseScore a ask l := by
  unfold scoreOf caseScore
  have hp := mem_pit_queryUpd ask l a l
  have hs := mem_safe_queryUpd ask l a l
  have hq := mem_poss_queryUpd ask l a l
  unfold askPit at hp
  unfold askSafe at hs
  unfold askPit askSafe at hq
  by_cases h1 : l ∈ (queryUpd ask l a).pit_tiles
  · rw [if_pos h1, if_pos]
    rw [hp] at h1
    tauto
  · rw [if_neg h1]
    rw [hp] at h1
    by_cases h2 : l ∉ (queryUpd ask l a).possible_pits ∧
        l ∈ (queryUpd ask l a).safe_tiles
    · rw [if_pos h2, if_neg, if_pos]
      · omega
      · rw [hq, hs] at h2
        cases hT : ask (MazeClause [(("P", l), true)]) <;>
          cases hF : ask (MazeClause [(("P", l), false)]) <;>
            simp [hT, hF] at h2 ⊢ <;> tauto
      · tauto
    · rw [if_neg h2, if_neg, if_neg]
      · rw [hq, hs] at h2
        cases hT : ask (MazeClause [(("P", l), true)]) <;>
          cases hF : ask (MazeClause [(("P", l), false)]) <;>
            simp [hT, hF] at h2 ⊢ <;> tauto
      · tauto

lemma frontierLoop_scores (ask : Clause → Bool) (d : Loc → Nat) :
    ∀ (fr : List Loc) (a : MazeAgent),
      (frontierLoop ask d fr a).2 =
        fr.map (fun l => (l, d l + caseScore a ask l))
  | [], _ => rfl
  | l :: rest, a => by
      simp only [frontierLoop]
      rw [frontierLoop_scores ask d rest (queryUpd ask l a)]
      rw [scoreOf_queryUpd]
      simp only [List.map_cons, List.cons.injEq, Prod.mk.injEq, true_and]
      apply List.map_congr_left
      intro x _
      rw [caseScore_queryUpd]

lemma frontierLoop_goal (ask : Clause → Bool) (d : Loc → Nat) :
    ∀ (fr : List Loc) (a : MazeAgent),
      (frontierLoop ask d fr a).1.goal = a.goal
  | [], _ => rfl
  | l :: rest, a => by
      simp only [frontierLoop]
      rw [frontierLoop_goal ask d rest (queryUpd ask l a), queryUpd_goal]

lemma frontierLoop_kb (ask : Clause → Bool) (d : Loc → Nat) :
    ∀ (fr : List Loc) (a : MazeAgent),
      (frontierLoop ask d fr a).1.kb = a.kb
  | [], _ => rfl
  | l :: rest, a => by
      simp only [frontierLoop]
      rw [frontierLoop_kb ask d rest (queryUpd ask l a), queryUpd_kb]

lemma frontierLoop_pit (ask : Clause → Bool) (d : Loc → Nat) :
    ∀ (fr : List Loc) (a : MazeAgent) (x : Loc),
      x ∈ (frontierLoop ask d fr a).1.pit_tiles ↔
        x ∈ a.pit_tiles ∨ (x ∈ fr ∧ askPit ask x = true)
  | [], a, x => by simp [frontierLoop]
  | l :: rest, a, x => by
      simp only [frontierLoop]
      rw [frontierLoop_pit ask d rest (queryUpd ask l a) x,
        mem_pit_queryUpd]
      by_cases hxl : x = l
      · subst hxl; simp; try tauto
      · simp [hxl]; try tauto

lemma frontierLoop_safe (ask : Clause → Bool) (d : Loc → Nat) :
    ∀ (fr : List Loc) (a : MazeAgent) (x : Loc),
      x ∈ (frontierLoop ask d fr a).1.safe_tiles ↔
        x ∈ a.safe_tiles ∨ (x ∈ fr ∧ askSafe ask x = true)
  | [], a, x => by simp [frontierLoop]
  | l :: rest, a, x => by
      simp only [frontierLoop]
      rw [frontierLoop_safe ask d rest (queryUpd ask l a) x,
        mem_safe_queryUpd]
      by_cases hxl : x = l
      · subst hxl; simp; try tauto
      · simp [hxl]; try tauto

lemma frontierLoop_poss (ask : Clause → Bool) (d : Loc → Nat) :
    ∀ (fr : List Loc) (a : MazeAgent) (x : Loc),
      x ∈ (frontierLoop ask d fr a).1.possible_pits ↔
        x ∈ a.possible_pits ∧
          ¬(x ∈ fr ∧ (askPit ask x = true ∨ askSafe ask x = true))
  | [], a, x => by simp [frontierLoop]
  | l :: rest, a, x => by
      simp only [frontierLoop]
      rw [frontierLoop_poss ask d rest (queryUpd ask l a) x,
        mem_poss_queryUpd]
      by_cases hxl : x = l
      · subst hxl; simp; try tauto
      · simp [hxl]; try tauto

lemma bestFold_some (l : List (Loc × Nat)) :
    ∀ (b : Loc × Nat),
      bestFold (some b) l =
        match firstMin l with
        | none => some b
        | some q => if q.2 < b.2 then some q else some b := by
  induction l with
  | nil => intro b; rfl
  | cons p rest ih =>
      intro b
      match p with
      | (x, v) =>
        simp only [bestFold, firstMin]
        by_cases hvb : v < b.2
        · rw [if_pos hvb, ih (x, v)]
          cases hfm : firstMin rest with
          | none => simp [hvb]
          | some q =>
              by_cases hqv : q.2 < v
              · have h1 : ¬ v ≤ q.2 := by omega
                have h2 : q.2 < b.2 := by omega
                simp [hqv, h1, h2]
              · have h1 : v ≤ q.2 := by omega
                simp [hqv, h1, hvb]
        · rw [if_neg hvb, ih b]
          cases hfm : firstMin rest with
          | none =>
              have h1 : ¬ v < b.2 := hvb
              simp [h1]
          | some q =>
              by_cases hqb : q.2 < b.2
              · have h1 : q.2 < v := by omega
                by_cases h2 : v ≤ q.2
                · omega
                · simp [hqb, h2, h1]
              · by_cases h2 : v ≤ q.2
                · have h3 : ¬ v < b.2 := hvb
                  simp [hqb, h2, h3]
                · simp [hqb, h2]

lemma bestFold_eq_firstMin (l : List (Loc × Nat)) :
    bestFold none l = firstMin l := by
  cases l with
  | nil => rfl
  | cons p rest =>
      simp only [bestFold, firstMin]
      rw [bestFold_some rest p]
      cases hfm : firstMin rest with
      | none => rfl
      | some q =>
          by_cases h : p.2 ≤ q.2
          · have h1 : ¬ q.2 < p.2 := by omega
            simp [h, h1]
          · have h1 : q.2 < p.2 := by omega
            simp [h, h1]

lemma firstMin_isSome (p : Loc × Nat) (rest : List (Loc × Nat)) :
    ∃ q, firstMin (p :: rest) = some q := by
  simp only [firstMin]
  cases firstMin rest with
  | none => exact ⟨p, rfl⟩
  | some q =>
      by_cases h : p.2 ≤ q.2
      · exact ⟨p, by simp [h]⟩
      · exact ⟨q, by simp [h]⟩

lemma firstMin_mem (l : List (Loc × Nat)) :
    ∀ q, firstMin l = some q → q ∈ l := by
  induction l with
  | nil => intro q h; cases h
  | cons p rest ih =>
      intro q h
      simp only [firstMin] at h
      cases hfm : firstMin rest with
      | none =>
          rw [hfm] at h
          cases h
          exact List.mem_cons_self p rest
      | some r =>
          rw [hfm] at h
          dsimp only at h
          by_cases hle : p.2 ≤ r.2
          · rw [if_pos hle] at h
            cases h
            exact List.mem_cons_self p rest
          · rw [if_neg hle] at h
            cases h
            exact List.mem_cons_of_mem p (ih q hfm)

lemma firstMin_le (l : List (Loc × Nat)) :
    ∀ q, firstMin l = some q → ∀ r ∈ l, q.2 ≤ r.2 := by
  induction l with
  | nil => intro q h; cases h
  | cons p rest ih =>
      intro q h r hr
      simp only [firstMin] at h
      cases hfm : firstMin rest with
      | none =>
          rw [hfm] at h
          cases h
          cases List.mem_cons.mp hr with
          | inl h1 => rw [h1]
          | inr h1 =>
              cases rest with
              | nil => cases h1
              | cons p2 rest2 =>
                  obtain ⟨q2, hq2⟩ := firstMin_isSome p2 rest2
                  rw [hq2] at hfm
                  cases hfm
      | some m =>
          rw [hfm] at h
          dsimp only at h
          by_cases hle : p.2 ≤ m.2
          · rw [if_pos hle] at h
            cases h
            cases List.mem_cons.mp hr with
            | inl h1 => rw [h1]
            | inr h1 => exact le_trans hle (ih m hfm r h1)
          · rw [if_neg hle] at h
            cases h
            cases List.mem_cons.mp hr with
            | inl h1 => rw [h1]; omega
            | inr h1 => exact ih q hfm r h1

lemma get_manhattan_dist_ne_zero (goal l : Loc) (h : l ≠ goal) :
    get_manhattan_dist goal l ≠ 0 := by
  unfold get_manhattan_dist
  intro hc
  apply h
  have h1 : (l.1 - goal.1).natAbs = 0 := by omega
  have h2 : (l.2 - goal.2).natAbs = 0 := by omega
  have h3 : l.1 = goal.1 := by
    have := Int.natAbs_eq_zero.mp h1
    omega
  have h4 : l.2 = goal.2 := by
    have := Int.natAbs_eq_zero.mp h2
    omega
  exact Prod.ext h3 h4

lemma thinkPre_goal (a : MazeAgent) : (thinkPre a).goal = a.goal := rfl

lemma thinkPre_kb (a : MazeAgent) :
    (thinkPre a).kb = a.kb ++ [MazeClause [(("P", a.goal), false)]] := rfl

lemma thinkPre_poss (a : MazeAgent) :
    (thinkPre a).possible_pits = a.possible_pits := rfl

lemma mem_safe_thinkPre (a : MazeAgent) (x : Loc) :
    x ∈ (thinkPre a).safe_tiles ↔ x = a.goal ∨ x ∈ a.safe_tiles := by
  simp [thinkPre, MazeAgent.tell, Finset.mem_insert]

lemma foldl_tell_goal : ∀ (l : List Clause) (a : MazeAgent),
    (l.foldl MazeAgent.tell a).goal = a.goal := by
  intro l
  induction l with
  | nil => intro a; rfl
  | cons c rest ih => intro a; simp only [List.foldl_cons]; rw [ih]; rfl

lemma foldl_tell_safe : ∀ (l : List Clause) (a : MazeAgent),
    (l.foldl MazeAgent.tell a).safe_tiles = a.safe_tiles := by
  intro l
  induction l with
  | nil => intro a; rfl
  | cons c rest ih => intro a; simp only [List.foldl_cons]; rw [ih]; rfl

lemma foldl_tell_poss : ∀ (l : List Clause) (a : MazeAgent),
    (l.foldl MazeAgent.tell a).possible_pits = a.possible_pits := by
  intro l
  induction l with
  | nil => intro a; rfl
  | cons c rest ih => intro a; simp only [List.foldl_cons]; rw [ih]; rfl

lemma foldl_pitTell_goal : ∀ (l : List Loc) (a : MazeAgent),
    (l.foldl
      (fun a t =>
        MazeAgent.tell { a with pit_tiles := insert t a.pit_tiles }
          (MazeClause [(("P", t), true)])) a).goal = a.goal := by
  intro l
  induction l with
  | nil => intro a; rfl
  | cons t rest ih => intro a; simp only [List.foldl_cons]; rw [ih]; rfl

lemma foldl_pitTell_safe : ∀ (l : List Loc) (a : MazeAgent),
    (l.foldl
      (fun a t =>
        MazeAgent.tell { a with pit_tiles := insert t a.pit_tiles }
          (MazeClause [(("P", t), true)])) a).safe_tiles = a.safe_tiles := by
  intro l
  induction l with
  | nil => intro a; rfl
  | cons t rest ih => intro a; simp only [List.foldl_cons]; rw [ih]; rfl

lemma foldl_pitTell_poss : ∀ (l : List Loc) (a : MazeAgent),
    (l.foldl
      (fun a t =>
        MazeAgent.tell { a with pit_tiles := insert t a.pit_tiles }
          (MazeClause [(("P", t), true)])) a).possible_pits =
      a.possible_pits := by
  intro l
  induction l with
  | nil => intro a; rfl
  | cons t rest ih => intro a; simp only [List.foldl_cons]; rw [ih]; rfl

lemma warning_tile_clause_goal (w : String) (loc : Loc) (adjacent : List Loc)
    (a : MazeAgent) : (warning_tile_clause w loc adjacent a).goal = a.goal := by
  unfold warning_tile_clause simplify_self
  dsimp only
  split_ifs <;>
    first
      | rfl
      | exact foldl_pitTell_goal adjacent a
      | exact foldl_tell_goal _ a

lemma warning_tile_clause_safe (w : String) (loc : Loc) (adjacent : List Loc)
    (a : MazeAgent) :
    (warning_tile_clause w loc adjacent a).safe_tiles = a.safe_tiles := by
  unfold warning_tile_clause simplify_self
  dsimp only
  split_ifs <;>
    first
      | rfl
      | exact foldl_pitTell_safe adjacent a
      | exact foldl_tell_safe _ a

lemma warning_tile_clause_poss (w : String) (loc : Loc) (adjacent : List Loc)
    (a : MazeAgent) :
    (warning_tile_clause w loc adjacent a).possible_pits = a.possible_pits := by
  unfold warning_tile_clause simplify_self
  dsimp only
  split_ifs <;>
    first
      | rfl
      | exact foldl_pitTell_poss adjacent a
      | exact foldl_tell_poss _ a

lemma foldl_clearStep_goal : ∀ (adj : List Loc) (a : MazeAgent),
    (adj.foldl clearStep a).goal = a.goal := by
  intro adj
  induction adj with
  | nil => intro a; rfl
  | cons t rest ih => intro a; simp only [List.foldl_cons]; rw [ih]; rfl

lemma foldl_clearStep_safe : ∀ (adj : List Loc) (a : MazeAgent) (x : Loc),
    x ∈ (adj.foldl clearStep a).safe_tiles ↔ x ∈ adj ∨ x ∈ a.safe_tiles := by
  intro adj
  induction adj with
  | nil => intro a x; simp
  | cons t rest ih =>
      intro a x
      simp only [List.foldl_cons, ih, clearStep, MazeAgent.tell, List.mem_cons,
        Finset.mem_insert]
      tauto

lemma foldl_clearStep_poss : ∀ (adj : List Loc) (a : MazeAgent) (x : Loc),
    x ∈ (adj.foldl clearStep a).possible_pits ↔
      x ∈ a.possible_pits ∧ x ∉ adj := by
  intro adj
  induction adj with
  | nil => intro a x; simp
  | cons t rest ih =>
      intro a x
      simp only [List.foldl_cons, ih, clearStep, MazeAgent.tell, List.mem_cons,
        Finset.mem_erase]
      tauto

lemma foldl_clearStep_kb : ∀ (adj : List Loc) (a : MazeAgent),
    (adj.foldl clearStep a).kb =
      a.kb ++ adj.map (fun t => MazeClause [(("P", t), false)]) := by
  intro adj
  induction adj with
  | nil => intro a; simp
  | cons t rest ih =>
      intro a
      simp only [List.foldl_cons, ih, clearStep, MazeAgent.tell, List.map_cons]
      simp

lemma foldl_possStep_goal : ∀ (adj : List Loc) (a : MazeAgent),
    (adj.foldl possStep a).goal = a.goal := by
  intro adj
  induction adj with
  | nil => intro a; rfl
  | cons t rest ih =>
      intro a
      simp only [List.foldl_cons]
      rw [ih]
      unfold possStep
      split_ifs <;> rfl

lemma foldl_possStep_safe : ∀ (adj : List Loc) (a : MazeAgent),
    (adj.foldl possStep a).safe_tiles = a.safe_tiles := by
  intro adj
  induction adj with
  | nil => intro a; rfl
  | cons t rest ih =>
      intro a
      simp only [List.foldl_cons]
      rw [ih]
      unfold possStep
      split_ifs <;> rfl

lemma foldl_possStep_kb : ∀ (adj : List Loc) (a : MazeAgent),
    (adj.foldl possStep a).kb = a.kb := by
  intro adj
  induction adj with
  | nil => intro a; rfl
  | cons t rest ih =>
      intro a
      simp only [List.foldl_cons]
      rw [ih]
      unfold possStep
      split_ifs <;> rfl

lemma classifyTile_goal (a : MazeAgent) (loc : Loc) (tile : String)
    (adj : List Loc) : (classifyTile a loc tile adj).goal = a.goal := by
  unfold classifyTile
  split_ifs
  · rfl
  · rw [foldl_clearStep_goal]; rfl
  · rw [foldl_possStep_goal]
    simp only [warning_tile_clause_goal]

/-- The agent state at the moment `think` enters its frontier loop: goal
preamble, tile classification, then store compaction. -/
def preQuery (a : MazeAgent) (loc : Loc) (tile : String) (adj : List Loc) :
    MazeAgent :=
  simplify_self (classifyTile (thinkPre a) loc tile adj)

lemma preQuery_goal (a : MazeAgent) (loc : Loc) (tile : String)
    (adj : List Loc) : (preQuery a loc tile adj).goal = a.goal := by
  simp only [preQuery, simplify_self, classifyTile_goal, thinkPre_goal]

lemma think_fst (a : MazeAgent) (loc : Loc) (tile : String)
    (frontier adj : List Loc) (ask : Clause → Bool) (hg : a.goal ∉ frontier) :
    (think a loc tile frontier adj ask).1 =
      (frontierLoop ask (get_manhattan_dist a.goal) frontier
        (preQuery a loc tile adj)).1 := by
  simp only [think, thinkPre_goal, preQuery, simplify_self]
  rw [if_neg hg]
  simp only [classifyTile_goal, thinkPre_goal]
  cases hbf : bestFold none (frontierLoop ask (get_manhattan_dist a.goal)
      frontier (classifyTile (thinkPre a) loc tile adj)).2 with
  | none => dsimp only; split_ifs <;> rfl
  | some pb => dsimp only; split_ifs <;> rfl

lemma think_snd_ok (a : MazeAgent) (loc : Loc) (tile : String)
    (frontier adj : List Loc) (ask : Clause → Bool)
    (hg : a.goal ∉ frontier) (hne : frontier ≠ []) :
    ∃ p, firstMin (frontier.map (fun l =>
        (l, get_manhattan_dist a.goal l +
          caseScore (preQuery a loc tile adj) ask l))) = some p ∧
      (think a loc tile frontier adj ask).2 = Except.ok (Choice.target p.1) := by
  obtain ⟨q, hq⟩ : ∃ q, firstMin (frontier.map (fun l =>
      (l, get_manhattan_dist a.goal l +
        caseScore (preQuery a loc tile adj) ask l))) = some q := by
    cases frontier with
    | nil => exact absurd rfl hne
    | cons f fr => exact firstMin_isSome _ _
  refine ⟨q, hq, ?_⟩
  have hqmem := firstMin_mem _ q hq
  obtain ⟨l0, hl0, hql⟩ := List.mem_map.mp hqmem
  have hl0g : l0 ≠ a.goal := fun h => hg (h ▸ hl0)
  have hqv : q.2 ≠ 0 := by
    rw [← hql]
    have := get_manhattan_dist_ne_zero a.goal l0 hl0g
    simp
    omega
  simp only [preQuery, simplify_self] at hq
  simp only [think, thinkPre_goal]
  rw [if_neg hg]
  simp only [simplify_self, classifyTile_goal, thinkPre_goal]
  rw [bestFold_eq_firstMin, frontierLoop_scores, hq]
  obtain ⟨ql, qv⟩ := q
  dsimp only
  rw [if_pos hqv]

lemma think_empty_frontier (a : MazeAgent) (loc : Loc) (tile : String)
    (adj : List Loc) (ask : Clause → Bool) :
    (think a loc tile [] adj ask).2 = Except.error ThinkError.emptyChoice := by
  simp only [think, thinkPre_goal]
  rw [if_neg (List.not_mem_nil a.goal)]
  rfl

lemma think_goal_shortcut (a : MazeAgent) (loc : Loc) (tile : String)
    (frontier adj : List Loc) (ask : Clause → Bool)
    (hg : a.goal ∈ frontier) :
    think a loc tile frontier adj ask =
      (thinkPre a, Except.ok (Choice.target a.goal)) := by
  simp only [think, thinkPre_goal]
  rw [if_pos hg]

lemma classifyTile_clear_safe (a : MazeAgent) (loc : Loc) (adj : List Loc)
    (x : Loc) :
    x ∈ (classifyTile a loc "." adj).safe_tiles ↔
      x ∈ adj ∨ x = loc ∨ x ∈ a.safe_tiles := by
  unfold classifyTile
  rw [if_neg (by decide : ¬("." : String) = "P"), if_pos rfl]
  dsimp only
  rw [foldl_clearStep_safe]
  simp [MazeAgent.tell, Finset.mem_insert]

lemma classifyTile_clear_poss (a : MazeAgent) (loc : Loc) (adj : List Loc)
    (x : Loc) :
    x ∈ (classifyTile a loc "." adj).possible_pits ↔
      (x ∈ a.possible_pits ∧ x ≠ loc) ∧ x ∉ adj := by
  unfold classifyTile
  rw [if_neg (by decide : ¬("." : String) = "P"), if_pos rfl]
  dsimp only
  rw [foldl_clearStep_poss]
  simp [MazeAgent.tell, Finset.mem_erase]
  tauto

lemma classifyTile_clear_kb (a : MazeAgent) (loc : Loc) (adj : List Loc) :
    (classifyTile a loc "." adj).kb =
      (a.kb ++ [MazeClause [(("P", loc), false)]]) ++
        adj.map (fun t => MazeClause [(("P", t), false)]) := by
  unfold classifyTile
  rw [if_neg (by decide : ¬("." : String) = "P"), if_pos rfl]
  dsimp only
  rw [foldl_clearStep_kb]
  rfl

lemma warning_tile_clause_other (w : String) (loc : Loc) (adjacent : List Loc)
    (a : MazeAgent) (h3 : w ≠ "3") (h2 : w ≠ "2") (h1 : w ≠ "1") :
    warning_tile_clause w loc adjacent a = a := by
  unfold warning_tile_clause simplify_self
  dsimp only
  rw [if_neg h3, if_neg h2, if_neg h1]

lemma classifyTile_other_safe (a : MazeAgent) (loc : Loc) (tile : String)
    (adj : List Loc) (hP : tile ≠ "P") (hD : tile ≠ ".") (x : Loc) :
    x ∈ (classifyTile a loc tile adj).safe_tiles ↔
      x = loc ∨ x ∈ a.safe_tiles := by
  unfold classifyTile
  rw [if_neg hP, if_neg hD]
  dsimp only
  rw [foldl_possStep_safe]
  simp [Finset.mem_insert, warning_tile_clause_safe]

lemma classifyTile_other_kb (a : MazeAgent) (loc : Loc) (tile : String)
    (adj : List Loc) (hP : tile ≠ "P") (hD : tile ≠ ".")
    (h3 : tile ≠ "3") (h2 : tile ≠ "2") (h1 : tile ≠ "1") :
    (classifyTile a loc tile adj).kb = a.kb := by
  unfold classifyTile
  rw [if_neg hP, if_neg hD]
  dsimp only
  rw [foldl_possStep_kb]
  rw [warning_tile_clause_other tile loc adj a h3 h2 h1]

lemma foldl_safeInsert_mem : ∀ (cards : List Loc) (a : MazeAgent) (x : Loc),
    x ∈ (cards.foldl
      (fun a t => { a with safe_tiles := insert t a.safe_tiles }) a).safe_tiles ↔
      x ∈ cards ∨ x ∈ a.safe_tiles := by
  intro cards
  induction cards with
  | nil => intro a x; simp
  | cons t rest ih =>
      intro a x
      simp only [List.foldl_cons, ih, List.mem_cons, Finset.mem_insert]
      tauto

lemma foldl_safeInsert_pit : ∀ (cards : List Loc) (a : MazeAgent),
    (cards.foldl
      (fun a t => { a with safe_tiles := insert t a.safe_tiles }) a).pit_tiles =
      a.pit_tiles := by
  intro cards
  induction cards with
  | nil => intro a; rfl
  | cons t rest ih => intro a; simp only [List.foldl_cons]; rw [ih]

lemma foldl_safeInsert_poss : ∀ (cards : List Loc) (a : MazeAgent),
    (cards.foldl
      (fun a t => { a with safe_tiles := insert t a.safe_tiles }) a).possible_pits =
      a.possible_pits := by
  intro cards
  induction cards with
  | nil => intro a; rfl
  | cons t rest ih => intro a; simp only [List.foldl_cons]; rw [ih]

lemma foldl_safeInsert_kb : ∀ (cards : List Loc) (a : MazeAgent),
    (cards.foldl
      (fun a t => { a with safe_tiles := insert t a.safe_tiles }) a).kb =
      a.kb := by
  intro cards
  induction cards with
  | nil => intro a; rfl
  | cons t rest ih => intro a; simp only [List.foldl_cons]; rw [ih]

/-- C9: immediately after construction the safe set is exactly
`{start, goal}` together with the cardinal neighbors of the start at radius
1, the confirmed-pit and possible-pit sets are empty, and the knowledge base
is empty. -/
theorem initialization_state (start goal : Loc) (cardinals : List Loc) :
    (∀ l : Loc, l ∈ (initMazeAgent start goal cardinals).safe_tiles ↔
      (l = start ∨ l = goal ∨ l ∈ cardinals)) ∧
    (initMazeAgent start goal cardinals).pit_tiles = ∅ ∧
    (initMazeAgent start goal cardinals).possible_pits = ∅ ∧
    (initMazeAgent start goal cardinals).kb = [] := by
  refine ⟨?_, ?_, ?_, ?_⟩
  · intro l
    simp only [initMazeAgent]
    rw [foldl_safeInsert_mem]
    simp [Finset.mem_insert]
    tauto
  · simp only [initMazeAgent]
    rw [foldl_safeInsert_pit]
  · simp only [initMazeAgent]
    rw [foldl_safeInsert_poss]
  · simp only [initMazeAgent]
    rw [foldl_safeInsert_kb]

/-- C5: whenever the goal is a member of the frontier, `think` returns the
goal location, regardless of any scores. -/
theorem goal_shortcut (a : MazeAgent) (loc : Loc) (tile : String)
    (frontier adj : List Loc) (ask : Clause → Bool) (hg : a.goal ∈ frontier) :
    (think a loc tile frontier adj ask).2 =
      Except.ok (Choice.target a.goal) := by
  rw [think_goal_shortcut a loc tile frontier adj ask hg]

/-- Witness for C5 at a concrete input. -/
theorem goal_shortcut_witness :
    (think (initMazeAgent (0, 0) (2, 2) []) (0, 0) "." [(2, 2), (1, 0)] []
      (fun _ => false)).2 = Except.ok (Choice.target (2, 2)) :=
  goal_shortcut (initMazeAgent (0, 0) (2, 2) []) (0, 0) "." [(2, 2), (1, 0)]
    [] (fun _ => false) (by decide)

/-- C10: `is_safe_tile` consults the cached safe set first, then the pit
set, then the hazard query, then the safety query, returning `none` when
nothing is conclusive. -/
theorem is_safe_tile_precedence (a : MazeAgent) (ask : Clause → Bool)
    (l : Loc) :
    (l ∈ a.safe_tiles → is_safe_tile a ask l = some true) ∧
    (l ∉ a.safe_tiles → l ∈ a.pit_tiles → is_safe_tile a ask l = some false) ∧
    (l ∉ a.safe_tiles → l ∉ a.pit_tiles → askPit ask l = true →
      is_safe_tile a ask l = some false) ∧
    (l ∉ a.safe_tiles → l ∉ a.pit_tiles → askPit ask l = false →
      askSafe ask l = true → is_safe_tile a ask l = some true) ∧
    (l ∉ a.safe_tiles → l ∉ a.pit_tiles → askPit ask l = false →
      askSafe ask l = false → is_safe_tile a ask l = none) := by
  unfold is_safe_tile askPit askSafe
  refine ⟨?_, ?_, ?_, ?_, ?_⟩ <;> intros <;> split_ifs <;> simp_all

/-- Witness for C10: a location that is cached safe while the knowledge base
would also report it a hazard is still reported safe. -/
theorem is_safe_tile_precedence_witness :
    ((0, 0) : Loc) ∈ (initMazeAgent (0, 0) (1, 1) []).safe_tiles ∧
    is_safe_tile (initMazeAgent (0, 0) (1, 1) []) (fun _ => true) (0, 0) =
      some true :=
  ⟨by decide,
    (is_safe_tile_precedence (initMazeAgent (0, 0) (1, 1) [])
      (fun _ => true) (0, 0)).1 (by decide)⟩

/-- C7 amended: the random fallback branch of `think` is reached exactly
when the frontier is empty, and there `random.choice` on the empty sequence
raises instead of returning a location; for a nonempty frontier `think`
never reaches the fallback. -/
theorem fallback_error_iff (a : MazeAgent) (loc : Loc) (tile : String)
    (frontier adj : List Loc) (ask : Clause → Bool) :
    (think a loc tile frontier adj ask).2 =
        Except.error ThinkError.emptyChoice ↔
      frontier = [] := by
  constructor
  · intro h
    by_contra hne
    by_cases hg : a.goal ∈ frontier
    · rw [think_goal_shortcut a loc tile frontier adj ask hg] at h
      cases h
    · obtain ⟨p, _, hok⟩ := think_snd_ok a loc tile frontier adj ask hg hne
      rw [hok] at h
      cases h
  · intro h
    subst h
    exact think_empty_frontier a loc tile adj ask

/-- Counterexample for C7 as stated: on an empty frontier the fallback does
not return a random frontier location, it fails. -/
theorem empty_frontier_is_fatal :
    (think (initMazeAgent (0, 0) (5, 5) []) (0, 0) "." [] []
      (fun _ => false)).2 = Except.error ThinkError.emptyChoice := by
  rfl

/-- C3 amended: when both the hazard and the safety query succeed for a
frontier location in one step, `think` raises nothing: it places the
location in both the pit set and the safe set, removes it from the possible
pits, and returns a frontier target normally. -/
theorem contradiction_absorbed (a : MazeAgent) (loc : Loc) (tile : String)
    (frontier adj : List Loc) (ask : Clause → Bool) (l0 : Loc)
    (hg : a.goal ∉ frontier) (hmem : l0 ∈ frontier)
    (hT : askPit ask l0 = true) (hF : askSafe ask l0 = true) :
    l0 ∈ (think a loc tile frontier adj ask).1.pit_tiles ∧
    l0 ∈ (think a loc tile frontier adj ask).1.safe_tiles ∧
    l0 ∉ (think a loc tile frontier adj ask).1.possible_pits ∧
    ∃ l, (think a loc tile frontier adj ask).2 =
      Except.ok (Choice.target l) := by
  have hne : frontier ≠ [] := List.ne_nil_of_mem hmem
  refine ⟨?_, ?_, ?_, ?_⟩
  · rw [think_fst a loc tile frontier adj ask hg, frontierLoop_pit]
    exact Or.inr ⟨hmem, hT⟩
  · rw [think_fst a loc tile frontier adj ask hg, frontierLoop_safe]
    exact Or.inr ⟨hmem, hF⟩
  · rw [think_fst a loc tile frontier adj ask hg, frontierLoop_poss]
    intro hc
    exact hc.2 ⟨hmem, Or.inl hT⟩
  · obtain ⟨p, _, hok⟩ := think_snd_ok a loc tile frontier adj ask hg hne
    exact ⟨p.1, hok⟩

/-- Witness for the amended C3 at a concrete input where both queries
answer true. -/
theorem contradiction_absorbed_witness :
    ((1, 0) : Loc) ∈ (think (initMazeAgent (0, 0) (5, 5) []) (0, 0) "."
      [(1, 0)] [] (fun _ => true)).1.pit_tiles ∧
    ((1, 0) : Loc) ∈ (think (initMazeAgent (0, 0) (5, 5) []) (0, 0) "."
      [(1, 0)] [] (fun _ => true)).1.safe_tiles ∧
    ((1, 0) : Loc) ∉ (think (initMazeAgent (0, 0) (5, 5) []) (0, 0) "."
      [(1, 0)] [] (fun _ => true)).1.possible_pits ∧
    ∃ l, (think (initMazeAgent (0, 0) (5, 5) []) (0, 0) "." [(1, 0)] []
      (fun _ => true)).2 = Except.ok (Choice.target l) :=
  contradiction_absorbed (initMazeAgent (0, 0) (5, 5) []) (0, 0) "."
    [(1, 0)] [] (fun _ => true) (1, 0) (by decide) (by decide) rfl rfl

/-- Counterexample for C3 as stated: both queries succeed for the frontier
location `(1, 0)`, yet `think` returns normally (no error is surfaced) and
silently classifies the location as both pit and safe. -/
theorem contradiction_not_surfaced :
    (think (initMazeAgent (0, 0) (5, 5) []) (0, 0) "." [(1, 0)] []
        (fun _ => true)).2 = Except.ok (Choice.target (1, 0)) ∧
    ((1, 0) : Loc) ∈ (think (initMazeAgent (0, 0) (5, 5) []) (0, 0) "."
      [(1, 0)] [] (fun _ => true)).1.pit_tiles ∧
    ((1, 0) : Loc) ∈ (think (initMazeAgent (0, 0) (5, 5) []) (0, 0) "."
      [(1, 0)] [] (fun _ => true)).1.safe_tiles :=
  ⟨rfl, by decide, by decide⟩

/-- C6 amended: on a `"."` perception in a step whose frontier does not
contain the goal, the current location and all its cardinal neighbors end up
in the safe set, out of the possible-pit set, and a unit not-pit clause is
told for each of them.  (When the goal is on the frontier, `think` returns
before classifying the tile, so none of this happens — see the
counterexample.) -/
theorem clear_tile_classification (a : MazeAgent) (loc : Loc)
    (frontier adj : List Loc) (ask : Clause → Bool) (hg : a.goal ∉ frontier)
    (t : Loc) (ht : t = loc ∨ t ∈ adj) :
    t ∈ (think a loc "." frontier adj ask).1.safe_tiles ∧
    t ∉ (think a loc "." frontier adj ask).1.possible_pits ∧
    MazeClause [(("P", t), false)] ∈ (think a loc "." frontier adj ask).1.kb := by
  refine ⟨?_, ?_, ?_⟩
  · rw [think_fst a loc "." frontier adj ask hg, frontierLoop_safe]
    left
    simp only [preQuery, simplify_self]
    rw [classifyTile_clear_safe]
    tauto
  · rw [think_fst a loc "." frontier adj ask hg, frontierLoop_poss]
    intro hc
    have h1 := hc.1
    simp only [preQuery, simplify_self] at h1
    rw [classifyTile_clear_poss] at h1
    tauto
  · rw [think_fst a loc "." frontier adj ask hg, frontierLoop_kb]
    simp only [preQuery, simplify_self]
    rw [classifyTile_clear_kb, thinkPre_kb]
    rcases ht with h | h
    · subst h
      simp
    · refine List.mem_append.mpr (Or.inr ?_)
      exact List.mem_map.mpr ⟨t, h, rfl⟩

/-- Witness for the amended C6: the spec's clear-tile scenario at `(2, 2)`
with the four neighbors previously unknown. -/
theorem clear_tile_classification_witness :
    ((1, 2) : Loc) ∈ (think (initMazeAgent (2, 2) (9, 9) []) (2, 2) "."
      [(3, 2)] [(1, 2), (3, 2), (2, 1), (2, 3)] (fun _ => false)).1.safe_tiles ∧
    ((1, 2) : Loc) ∉ (think (initMazeAgent (2, 2) (9, 9) []) (2, 2) "."
      [(3, 2)] [(1, 2), (3, 2), (2, 1), (2, 3)] (fun _ => false)).1.possible_pits ∧
    MazeClause [(("P", ((1, 2) : Loc)), false)] ∈
      (think (initMazeAgent (2, 2) (9, 9) []) (2, 2) "." [(3, 2)]
        [(1, 2), (3, 2), (2, 1), (2, 3)] (fun _ => false)).1.kb :=
  clear_tile_classification (initMazeAgent (2, 2) (9, 9) []) (2, 2) [(3, 2)]
    [(1, 2), (3, 2), (2, 1), (2, 3)] (fun _ => false) (by decide) (1, 2)
    (Or.inr (by decide))

/-- Counterexample for C6 as stated: with the goal on the frontier the step
returns the goal before classifying the `"."` tile, so the neighbor
`(0, -1)` is neither marked safe nor given a unit not-pit clause. -/
theorem clear_tile_skipped_on_goal_frontier :
    ((0, -1) : Loc) ∉ (think (initMazeAgent (0, 0) (3, 3) []) (0, 0) "."
      [(3, 3)] [(0, 1), (1, 0), (0, -1), (-1, 0)] (fun _ => false)).1.safe_tiles ∧
    MazeClause [(("P", ((0, -1) : Loc)), false)] ∉
      (think (initMazeAgent (0, 0) (3, 3) []) (0, 0) "." [(3, 3)]
        [(0, 1), (1, 0), (0, -1), (-1, 0)] (fun _ => false)).1.kb ∧
    (think (initMazeAgent (0, 0) (3, 3) []) (0, 0) "." [(3, 3)]
      [(0, 1), (1, 0), (0, -1), (-1, 0)] (fun _ => false)).2 =
        Except.ok (Choice.target (3, 3)) :=
  ⟨by decide, by decide, rfl⟩

/-- C8 amended: an unrecognized tile label raises nothing; `think` treats it
as a warning tile that produces no clauses (only the defensive goal-safe
unit is told), marks the perceived location safe, and proceeds to a normal
frontier selection. -/
theorem malformed_tile_proceeds (a : MazeAgent) (loc : Loc) (tile : String)
    (frontier adj : List Loc) (ask : Clause → Bool)
    (hP : tile ≠ "P") (hD : tile ≠ ".") (h1 : tile ≠ "1") (h2 : tile ≠ "2")
    (h3 : tile ≠ "3") (hg : a.goal ∉ frontier) (hne : frontier ≠ []) :
    (∃ l, (think a loc tile frontier adj ask).2 =
      Except.ok (Choice.target l)) ∧
    loc ∈ (think a loc tile frontier adj ask).1.safe_tiles ∧
    (think a loc tile frontier adj ask).1.kb =
      a.kb ++ [MazeClause [(("P", a.goal), false)]] := by
  refine ⟨?_, ?_, ?_⟩
  · obtain ⟨p, _, hok⟩ := think_snd_ok a loc tile frontier adj ask hg hne
    exact ⟨p.1, hok⟩
  · rw [think_fst a loc tile frontier adj ask hg, frontierLoop_safe]
    left
    simp only [preQuery, simplify_self]
    rw [classifyTile_other_safe (thinkPre a) loc tile adj hP hD]
    exact Or.inl rfl
  · rw [think_fst a loc tile frontier adj ask hg, frontierLoop_kb]
    simp only [preQuery, simplify_self]
    rw [classifyTile_other_kb (thinkPre a) loc tile adj hP hD h3 h2 h1,
      thinkPre_kb]

/-- Witness for the amended C8 with the unrecognized label `"X"`. -/
theorem malformed_tile_proceeds_witness :
    (∃ l, (think (initMazeAgent (0, 0) (5, 5) []) (0, 0) "X" [(1, 0)]
      [(1, 0), (0, 1)] (fun _ => false)).2 = Except.ok (Choice.target l)) ∧
    ((0, 0) : Loc) ∈ (think (initMazeAgent (0, 0) (5, 5) []) (0, 0) "X"
      [(1, 0)] [(1, 0), (0, 1)] (fun _ => false)).1.safe_tiles ∧
    (think (initMazeAgent (0, 0) (5, 5) []) (0, 0) "X" [(1, 0)]
        [(1, 0), (0, 1)] (fun _ => false)).1.kb =
      (initMazeAgent (0, 0) (5, 5) []).kb ++
        [MazeClause [(("P", (initMazeAgent (0, 0) (5, 5) []).goal), false)]] :=
  malformed_tile_proceeds (initMazeAgent (0, 0) (5, 5) []) (0, 0) "X"
    [(1, 0)] [(1, 0), (0, 1)] (fun _ => false) (by decide) (by decide)
    (by decide) (by decide) (by decide) (by decide) (by decide)

/-- Counterexample for C8 as stated: on the unrecognized label `"X"` the
controller surfaces no error — it returns a frontier target and has marked
the current location safe. -/
theorem malformed_tile_no_error :
    (think (initMazeAgent (0, 0) (5, 5) []) (0, 0) "X" [(1, 0)]
        [(1, 0), (0, 1)] (fun _ => false)).2 =
      Except.ok (Choice.target (1, 0)) ∧
    ((0, 0) : Loc) ∈ (think (initMazeAgent (0, 0) (5, 5) []) (0, 0) "X"
      [(1, 0)] [(1, 0), (0, 1)] (fun _ => false)).1.safe_tiles :=
  ⟨rfl, by decide⟩

lemma caseScore_eq_specCase (a : MazeAgent) (ask : Clause → Bool) (l : Loc)
    (hd : ¬(l ∈ a.safe_tiles ∧ l ∈ a.possible_pits)) :
    caseScore a ask l = specCase a ask l := by
  unfold caseScore specCase
  refine if_congr Iff.rfl rfl (if_congr ?_ rfl rfl)
  constructor
  · exact fun h => h.2
  · intro hsf
    refine ⟨?_, hsf⟩
    rintro ⟨hposs, _, hFf⟩
    rcases hsf with hsafe | hF
    · exact hd ⟨hsafe, hposs⟩
    · rw [hF] at hFf
      cases hFf

/-- C4: with the goal off a nonempty frontier, and the safe/possible
classification consistent, `think` scores every frontier location as
manhattan distance plus 20 for a confirmed hazard, plus 0 for a confirmed
safe location, plus 15 otherwise, and returns the minimum-score location,
keeping the first minimum in iteration order on ties. -/
theorem scoring_and_selection (a : MazeAgent) (loc : Loc) (tile : String)
    (frontier adj : List Loc) (ask : Clause → Bool)
    (hg : a.goal ∉ frontier) (hne : frontier ≠ [])
    (hdisj : ∀ l ∈ frontier,
      ¬(l ∈ (preQuery a loc tile adj).safe_tiles ∧
        l ∈ (preQuery a loc tile adj).possible_pits)) :
    ∃ p, firstMin (frontier.map (fun l =>
        (l, get_manhattan_dist a.goal l +
          specCase (preQuery a loc tile adj) ask l))) = some p ∧
      (think a loc tile frontier adj ask).2 =
        Except.ok (Choice.target p.1) := by
  obtain ⟨p, hfm, hok⟩ := think_snd_ok a loc tile frontier adj ask hg hne
  refine ⟨p, ?_, hok⟩
  rw [← hfm]
  congr 1
  apply List.map_congr_left
  intro l hl
  rw [caseScore_eq_specCase (preQuery a loc tile adj) ask l (hdisj l hl)]

/-- Witness for C4 at a concrete input. -/
theorem scoring_and_selection_witness :
    ∃ p, firstMin (([(1, 0), (0, 1)] : List Loc).map (fun l =>
        (l, get_manhattan_dist (initMazeAgent (0, 0) (4, 4) []).goal l +
          specCase (preQuery (initMazeAgent (0, 0) (4, 4) []) (0, 0) "."
            [(0, 1), (1, 0)]) (fun _ => false) l))) = some p ∧
      (think (initMazeAgent (0, 0) (4, 4) []) (0, 0) "." [(1, 0), (0, 1)]
        [(0, 1), (1, 0)] (fun _ => false)).2 =
          Except.ok (Choice.target p.1) :=
  scoring_and_selection (initMazeAgent (0, 0) (4, 4) []) (0, 0) "."
    [(1, 0), (0, 1)] [(0, 1), (1, 0)] (fun _ => false) (by decide)
    (by decide) (by decide)

/-- C1 fails on the code: for warning label 2 with the four unresolved
neighbors of `(1, 1)` (none known safe, so `N` is all four and `|N| ≤ 4`),
the assignment placing pits exactly at `(0, 1)` and `(2, 1)` — exactly 2
pits in `N` — falsifies one of the generated clauses, because the encoder
emits a positive two-literal clause for every pair of neighbors instead of
the (|N| − count + 1)-subset at-least clauses. -/
theorem encoder_exactly_two_failure :
    (([(0, 1), (2, 1), (1, 0), (1, 2)] : List Loc).filter
        (fun t => decide (t ∉ (initMazeAgent (9, 9) (8, 8) []).safe_tiles))) =
      ([(0, 1), (2, 1), (1, 0), (1, 2)] : List Loc) ∧
    hazardCount (fun p => p == ((0, 1) : Loc) || p == ((2, 1) : Loc))
      [(0, 1), (2, 1), (1, 0), (1, 2)] = 2 ∧
    ∃ c ∈ (warning_tile_clause "2" (1, 1) [(0, 1), (2, 1), (1, 0), (1, 2)]
        (initMazeAgent (9, 9) (8, 8) [])).kb,
      clauseSat (fun p => p == ((0, 1) : Loc) || p == ((2, 1) : Loc)) c =
        false := by
  refine ⟨rfl, rfl, ?_⟩
  decide

/-- C2 fails on the code: at `(1, 1)` with warning label 3, neighbor
`(0, 1)` already known safe and exactly the three others unresolved (so the
degenerate condition of the claim holds), the `'3'` branch nevertheless
tells a unit pit clause for the known-safe neighbor `(0, 1)` as well, and
adds it to the pit set. -/
theorem degenerate_warning_three_failure :
    ((0, 1) : Loc) ∈ (initMazeAgent (0, 1) (9, 9) []).safe_tiles ∧
    (([(0, 1), (2, 1), (1, 0), (1, 2)] : List Loc).filter
        (fun t => decide (t ∉ (initMazeAgent (0, 1) (9, 9) []).safe_tiles))) =
      ([(2, 1), (1, 0), (1, 2)] : List Loc) ∧
    MazeClause [(("P", ((0, 1) : Loc)), true)] ∈
      (warning_tile_clause "3" (1, 1) [(0, 1), (2, 1), (1, 0), (1, 2)]
        (initMazeAgent (0, 1) (9, 9) [])).kb ∧
    ((0, 1) : Loc) ∈
      (warning_tile_clause "3" (1, 1) [(0, 1), (2, 1), (1, 0), (1, 2)]
        (initMazeAgent (0, 1) (9, 9) [])).pit_tiles := by
  refine ⟨by decide, rfl, by decide, by decide⟩
